import Mathlib

/-!
# Verification of the appoptics-apm-go collector client

Shallow embedding of the core of the appoptics-apm-go tracing agent
(token-bucket rate counter, gRPC reporter retry loops, measurement
aggregator, settings decoding, service-key validation) together with
proofs and refutations of the specification's claims.

Modelling conventions:
* Go `float64` quantities that only flow through arithmetic that the
  claims reason about algebraically (token-bucket levels, measurement
  sums) are modelled as rationals `ℚ`; `time.Time` is modelled as a
  rational number of seconds.
* Go `int64`/`int` counters that are only ever incremented by small
  amounts are modelled as `ℕ`.
* Go maps are modelled as association lists (`List (κ × ν)`) or, for
  `map[string]bool` used as a set, as a `List String` without
  duplicates; Go map *iteration order* — which the Go specification
  leaves unspecified — is modelled by passing the enumeration order
  explicitly.
* Panics and Go `error` returns are modelled with `Option`/`Except`.
-/

namespace AppOptics

/-! ## Token-bucket rate counter (src/v1/tv/internal/traceview/oboe.go)

```go
type rateCounter struct {
    ratePerSec          float64
    capacity, available float64
    last                time.Time
    lock                sync.Mutex
    rateCounts
}
type rateCounts struct{ requested, sampled, limited, traced, through int64 }
```
-/

/-- The mutex-guarded bucket part of `rateCounter`. -/
structure RateBucket where
  ratePerSec : ℚ
  capacity : ℚ
  available : ℚ
  /-- `last` timestamp, in seconds. -/
  last : ℚ
deriving Repr, DecidableEq

/-- The five atomic admission counters of `rateCounts`. -/
structure RateCounts where
  requested : ℕ := 0
  sampled : ℕ := 0
  limited : ℕ := 0
  traced : ℕ := 0
  through : ℕ := 0
deriving Repr, DecidableEq

/-- Full `rateCounter` state. -/
structure RateCounter where
  bucket : RateBucket
  counts : RateCounts
deriving Repr, DecidableEq

/-- `newRateCounter(ratePerSec, size)`:
`&rateCounter{ratePerSec: ratePerSec, capacity: size, available: size, last: time.Now()}`. -/
def newRateCounter (ratePerSec size now : ℚ) : RateCounter :=
  { bucket := { ratePerSec := ratePerSec, capacity := size, available := size, last := now }
    counts := {} }

/-- `rateCounter.update(now)`: refill the bucket from the elapsed wall-clock
time since `last`.

```go
func (b *rateCounter) update(now time.Time) {
    if b.available < b.capacity {
        delta := now.Sub(b.last)
        b.last = now
        if delta <= 0 { return }
        newTokens := b.ratePerSec * delta.Seconds()
        b.available = math.Min(b.capacity, b.available+newTokens)
    }
}
``` -/
def RateBucket.update (b : RateBucket) (now : ℚ) : RateBucket :=
  if b.available < b.capacity then
    if now - b.last ≤ 0 then { b with last := now }
    else { b with last := now,
                  available := min b.capacity (b.available + b.ratePerSec * (now - b.last)) }
  else b

/-- `rateCounter.consume(size)` (called under the lock):

```go
func (b *rateCounter) consume(size float64) bool {
    b.update(time.Now())
    if b.available >= size {
        b.available -= size
        return true
    }
    return false
}
``` -/
def RateBucket.consume (b : RateBucket) (now : ℚ) (size : ℚ) : Bool × RateBucket :=
  if (b.update now).available ≥ size then
    (true, { b.update now with available := (b.update now).available - size })
  else (false, b.update now)

/-- `rateCounter.Count(sampled, hasMetadata)`:

```go
func (b *rateCounter) Count(sampled, hasMetadata bool) bool {
    atomic.AddInt64(&b.requested, 1)
    if hasMetadata { atomic.AddInt64(&b.through, 1) }
    if !sampled { return sampled }
    atomic.AddInt64(&b.sampled, 1)
    if ok := b.consume(1); !ok {
        atomic.AddInt64(&b.limited, 1)
        return false
    }
    atomic.AddInt64(&b.traced, 1)
    return sampled
}
```
The wall-clock instant observed by `consume`'s `time.Now()` is passed
explicitly as `now`. -/
def RateCounter.count (rc : RateCounter) (smp hasMetadata : Bool) (now : ℚ) :
    Bool × RateCounter :=
  let c1 := { rc.counts with requested := rc.counts.requested + 1 }
  let c2 := if hasMetadata then { c1 with through := c1.through + 1 } else c1
  if !smp then (false, { rc with counts := c2 })
  else
    let c3 := { c2 with sampled := c2.sampled + 1 }
    if (rc.bucket.consume now 1).1 = false then
      (false, { bucket := (rc.bucket.consume now 1).2,
                counts := { c3 with limited := c3.limited + 1 } })
    else
      (true, { bucket := (rc.bucket.consume now 1).2,
               counts := { c3 with traced := c3.traced + 1 } })

/-- One bucket operation: the instants at which `update`/`consume` observe
`time.Now()` are data of the operation. `consume` always has size 1 in the
program (`b.consume(1)` from `Count`), but we keep the size parameter. -/
inductive RateOp where
  | update (now : ℚ)
  | consume (now : ℚ) (size : ℚ)
deriving Repr, DecidableEq

/-- Apply one operation to the bucket (dropping `consume`'s boolean result). -/
def RateBucket.applyOp (b : RateBucket) : RateOp → RateBucket
  | .update now => b.update now
  | .consume now size => (b.consume now size).2

/-- Apply a sequence of operations. -/
def RateBucket.applyOps (b : RateBucket) (ops : List RateOp) : RateBucket :=
  ops.foldl RateBucket.applyOp b

/-- A `consume` with a negative size never occurs in the program; sequences
of calls all have nonnegative sizes (in fact always 1). -/
def RateOp.sizeOk : RateOp → Prop
  | .update _ => True
  | .consume _ size => 0 ≤ size

instance : DecidablePred RateOp.sizeOk := by
  intro op; cases op <;> simp [RateOp.sizeOk] <;> infer_instance

/-- Bucket well-formedness: nonnegative rate and `0 ≤ available ≤ capacity`. -/
def RateBucket.Inv (b : RateBucket) : Prop :=
  0 ≤ b.ratePerSec ∧ 0 ≤ b.available ∧ b.available ≤ b.capacity

instance : DecidablePred RateBucket.Inv := by
  intro b; unfold RateBucket.Inv; infer_instance

theorem update_available_le (b : RateBucket) (now : ℚ)
    (h : b.available ≤ b.capacity) : (b.update now).available ≤ b.capacity := by
  unfold RateBucket.update
  split
  · split
    · exact h
    · exact min_le_left _ _
  · exact h

theorem update_available_mono (b : RateBucket) (now : ℚ)
    (hr : 0 ≤ b.ratePerSec) : b.available ≤ (b.update now).available := by
  unfold RateBucket.update
  split
  · split
    · exact le_refl _
    · rename_i hlt hdelta
      simp only
      refine le_min (le_of_lt hlt) ?_
      nlinarith [le_of_not_le hdelta]
  · exact le_refl _

theorem update_capacity_eq (b : RateBucket) (now : ℚ) :
    (b.update now).capacity = b.capacity := by
  unfold RateBucket.update
  split
  · split <;> rfl
  · rfl

theorem update_rate_eq (b : RateBucket) (now : ℚ) :
    (b.update now).ratePerSec = b.ratePerSec := by
  unfold RateBucket.update
  split
  · split <;> rfl
  · rfl

theorem update_inv (b : RateBucket) (now : ℚ) (h : b.Inv) : (b.update now).Inv := by
  obtain ⟨hr, h0, hc⟩ := h
  refine ⟨by rw [update_rate_eq]; exact hr, ?_, ?_⟩
  · exact le_trans h0 (update_available_mono b now hr)
  · rw [update_capacity_eq]; exact update_available_le b now hc

theorem consume_inv (b : RateBucket) (now size : ℚ) (hsz : 0 ≤ size) (h : b.Inv) :
    ((b.consume now size).2).Inv := by
  have hu := update_inv b now h
  obtain ⟨hr, h0, hc⟩ := hu
  unfold RateBucket.consume
  split
  · rename_i hge
    exact ⟨hr, by simpa using sub_nonneg.mpr hge, by simp; linarith⟩
  · exact ⟨hr, h0, hc⟩

theorem applyOp_inv (b : RateBucket) (op : RateOp) (hop : op.sizeOk) (h : b.Inv) :
    (b.applyOp op).Inv := by
  cases op with
  | update now => exact update_inv b now h
  | consume now size => exact consume_inv b now size hop h

theorem applyOps_inv (b : RateBucket) (ops : List RateOp)
    (hops : ∀ op ∈ ops, op.sizeOk) (h : b.Inv) : (b.applyOps ops).Inv := by
  induction ops generalizing b with
  | nil => exact h
  | cons op rest ih =>
      exact ih _ (fun o ho => hops o (List.mem_cons_of_mem _ ho))
        (applyOp_inv b op (hops op (List.mem_cons_self _ _)) h)

theorem update_nonpos_elapsed (b : RateBucket) (now : ℚ) (h : now - b.last ≤ 0) :
    (b.update now).available = b.available := by
  unfold RateBucket.update
  rcases lt_or_ge b.available b.capacity with hlt | hge
  · rw [if_pos hlt, if_pos h]
  · rw [if_neg (not_lt.mpr hge)]

theorem update_refill_formula (b : RateBucket) (now : ℚ)
    (hroom : b.available < b.capacity) (hpos : 0 < now - b.last) :
    (b.update now).available =
      min b.capacity (b.available + b.ratePerSec * (now - b.last)) := by
  unfold RateBucket.update
  rw [if_pos hroom, if_neg (not_le.mpr hpos)]

/-- **C1.** A rate counter created by `newRateCounter(ratePerSec, size)` with
`size ≥ 0` and `ratePerSec ≥ 0` keeps `0 ≤ available ≤ capacity` after every
`consume` and `update` call; `update` never decreases `available`, a
non-positive elapsed time since `last` leaves `available` unchanged, and a
positive elapsed time refills by `ratePerSec × elapsed` clamped to
`capacity`. -/
theorem rateCounter_bucket_invariant (rate size now0 : ℚ)
    (hr : 0 ≤ rate) (hs : 0 ≤ size)
    (ops : List RateOp) (hops : ∀ op ∈ ops, op.sizeOk) :
    (0 ≤ ((newRateCounter rate size now0).bucket.applyOps ops).available ∧
      ((newRateCounter rate size now0).bucket.applyOps ops).available ≤
        ((newRateCounter rate size now0).bucket.applyOps ops).capacity) ∧
    (∀ (b : RateBucket) (now : ℚ), 0 ≤ b.ratePerSec →
      b.available ≤ (b.update now).available) ∧
    (∀ (b : RateBucket) (now : ℚ), now - b.last ≤ 0 →
      (b.update now).available = b.available) ∧
    (∀ (b : RateBucket) (now : ℚ), b.available < b.capacity → 0 < now - b.last →
      (b.update now).available =
        min b.capacity (b.available + b.ratePerSec * (now - b.last))) := by
  refine ⟨?_, fun b now hb => update_available_mono b now hb,
    fun b now h => update_nonpos_elapsed b now h,
    fun b now h1 h2 => update_refill_formula b now h1 h2⟩
  have hinv : ((newRateCounter rate size now0).bucket).Inv :=
    ⟨hr, hs, le_refl _⟩
  have := applyOps_inv _ ops hops hinv
  exact ⟨this.2.1, this.2.2⟩

/-- Witness for C1 at a concrete counter (`rate = 5`, `size = 2`) and a
concrete operation sequence. -/
theorem rateCounter_bucket_invariant_witness :
    0 ≤ (((newRateCounter 5 2 0).bucket.applyOps
        [.update 1, .consume 2 1, .consume 2 1]).available) ∧
    (((newRateCounter 5 2 0).bucket.applyOps
        [.update 1, .consume 2 1, .consume 2 1]).available) ≤
      (((newRateCounter 5 2 0).bucket.applyOps
        [.update 1, .consume 2 1, .consume 2 1]).capacity) := by
  have h := rateCounter_bucket_invariant 5 2 0 (by norm_num) (by norm_num)
    [.update 1, .consume 2 1, .consume 2 1]
    (by intro op hop; fin_cases hop <;> simp [RateOp.sizeOk])
  exact h.1

/-! ### C2: the counting discipline of `Count` -/

/-- Fold a sequence of `Count(sampled, hasMetadata)` calls (each observing
its own `time.Now()`) over a rate counter, keeping only the state. -/
def RateCounter.countAll (rc : RateCounter) (calls : List (Bool × Bool × ℚ)) : RateCounter :=
  calls.foldl (fun s c => (s.count c.1 c.2.1 c.2.2).2) rc

theorem count_requested (rc : RateCounter) (smp hm : Bool) (now : ℚ) :
    ((rc.count smp hm now).2).counts.requested = rc.counts.requested + 1 := by
  cases smp <;> cases hm <;> simp [RateCounter.count] <;> split <;> simp

theorem count_through (rc : RateCounter) (smp hm : Bool) (now : ℚ) :
    ((rc.count smp hm now).2).counts.through =
      rc.counts.through + (if hm then 1 else 0) := by
  cases smp <;> cases hm <;> simp [RateCounter.count] <;> split <;> simp

theorem count_sampled (rc : RateCounter) (smp hm : Bool) (now : ℚ) :
    ((rc.count smp hm now).2).counts.sampled =
      rc.counts.sampled + (if smp then 1 else 0) := by
  cases smp <;> cases hm <;> simp [RateCounter.count] <;> split <;> simp

theorem count_traced_limited (rc : RateCounter) (smp hm : Bool) (now : ℚ) :
    ((rc.count smp hm now).2).counts.traced + ((rc.count smp hm now).2).counts.limited =
      rc.counts.traced + rc.counts.limited + (if smp then 1 else 0) := by
  cases smp <;> cases hm <;> simp [RateCounter.count] <;> split <;> (simp; try omega)

theorem count_true_iff_traced (rc : RateCounter) (smp hm : Bool) (now : ℚ) :
    (rc.count smp hm now).1 = true ↔
      ((rc.count smp hm now).2).counts.traced = rc.counts.traced + 1 := by
  cases smp <;> cases hm <;> simp [RateCounter.count] <;> split <;> simp

theorem countAll_requested (rc : RateCounter) (calls : List (Bool × Bool × ℚ)) :
    (rc.countAll calls).counts.requested = rc.counts.requested + calls.length := by
  induction calls generalizing rc with
  | nil => rfl
  | cons c rest ih =>
      have hstep : rc.countAll (c :: rest) = (rc.count c.1 c.2.1 c.2.2).2.countAll rest := rfl
      rw [hstep, ih, count_requested, List.length_cons]
      omega

theorem countAll_through (rc : RateCounter) (calls : List (Bool × Bool × ℚ)) :
    (rc.countAll calls).counts.through =
      rc.counts.through + (calls.filter (fun c => c.2.1)).length := by
  induction calls generalizing rc with
  | nil => rfl
  | cons c rest ih =>
      have hstep : rc.countAll (c :: rest) = (rc.count c.1 c.2.1 c.2.2).2.countAll rest := rfl
      rw [hstep, ih, count_through]
      cases h : c.2.1 <;> simp [List.filter_cons, h] <;> omega

theorem countAll_sampled (rc : RateCounter) (calls : List (Bool × Bool × ℚ)) :
    (rc.countAll calls).counts.sampled =
      rc.counts.sampled + (calls.filter (fun c => c.1)).length := by
  induction calls generalizing rc with
  | nil => rfl
  | cons c rest ih =>
      have hstep : rc.countAll (c :: rest) = (rc.count c.1 c.2.1 c.2.2).2.countAll rest := rfl
      rw [hstep, ih, count_sampled]
      cases h : c.1 <;> simp [List.filter_cons, h] <;> omega

theorem countAll_traced_limited (rc : RateCounter) (calls : List (Bool × Bool × ℚ)) :
    (rc.countAll calls).counts.traced + (rc.countAll calls).counts.limited =
      rc.counts.traced + rc.counts.limited + (calls.filter (fun c => c.1)).length := by
  induction calls generalizing rc with
  | nil => rfl
  | cons c rest ih =>
      have hstep : rc.countAll (c :: rest) = (rc.count c.1 c.2.1 c.2.2).2.countAll rest := rfl
      rw [hstep, ih, count_traced_limited]
      cases h : c.1 <;> simp [List.filter_cons, h] <;> omega

/-- **C2.** Over any finite sequence of `Count(sampled, hasMetadata)` calls
on a fresh rate counter: `requested` is the number of calls, `through` the
number with `hasMetadata`, `sampled` the number with `sampled`,
`sampled = traced + limited`, and each individual call returns `true`
exactly when it incremented `traced`. -/
theorem rateCounter_count_discipline (rate size now0 : ℚ)
    (calls : List (Bool × Bool × ℚ)) :
    ((newRateCounter rate size now0).countAll calls).counts.requested = calls.length ∧
    ((newRateCounter rate size now0).countAll calls).counts.through =
      (calls.filter (fun c => c.2.1)).length ∧
    ((newRateCounter rate size now0).countAll calls).counts.sampled =
      (calls.filter (fun c => c.1)).length ∧
    ((newRateCounter rate size now0).countAll calls).counts.sampled =
      ((newRateCounter rate size now0).countAll calls).counts.traced +
        ((newRateCounter rate size now0).countAll calls).counts.limited ∧
    (∀ (rc : RateCounter) (smp hm : Bool) (now : ℚ),
      (rc.count smp hm now).1 = true ↔
        ((rc.count smp hm now).2).counts.traced = rc.counts.traced + 1) := by
  refine ⟨?_, ?_, ?_, ?_, fun rc smp hm now => count_true_iff_traced rc smp hm now⟩
  · rw [countAll_requested]; simp [newRateCounter]
  · rw [countAll_through]; simp [newRateCounter]
  · rw [countAll_sampled]; simp [newRateCounter]
  · rw [countAll_sampled, countAll_traced_limited]; simp [newRateCounter]

/-! ## gRPC reporter (src/unnamed/part_005, `reporter_grpc.go`) -/

/-- `collector.ResultCode` plus the `default:` case of the response switch. -/
inductive ResultCode where
  | ok
  | tryLater
  | limitExceeded
  | invalidApiKey
  | redirect
  | unknown
deriving Repr, DecidableEq

/-- `grpcRetryDelayInitial = 500` (ms). -/
def grpcRetryDelayInitial : ℕ := 500

/-- `grpcRetryDelayMax = 60` (s). -/
def grpcRetryDelayMax : ℕ := 60

/-- `grpcRedirectMax = 20 // max allowed collector redirects`. -/
def grpcRedirectMax : ℕ := 20

/-- `setRetryDelay`: `newDelay := int(float64(oldDelay) * 1.5)` capped at
`grpcRetryDelayMax * 1000`. The float multiplication is exact for every
delay the loop produces (all < 2⁵²), so `int(float64(d) * 1.5) = ⌊3d/2⌋`. -/
def setRetryDelay (oldDelay : ℕ) : ℕ :=
  if oldDelay * 3 / 2 > grpcRetryDelayMax * 1000 then grpcRetryDelayMax * 1000
  else oldDelay * 3 / 2

/-- State of one execution of the inner `for !resultOk` loop of
`eventRetrySender` for a single batch, plus an attempt counter
(one attempt = one `PostEvents` call). -/
structure EventRetryState where
  resultOk : Bool := false
  redirects : ℕ := 0
  delay : ℕ := grpcRetryDelayInitial
  numSent : ℕ := 0
  numFailed : ℕ := 0
  attempts : ℕ := 0
deriving Repr, DecidableEq

/-- One iteration of the `for !resultOk` loop of `eventRetrySender`
(src/unnamed/part_005 lines 493-543), given the collector's response to
this attempt: `none` models a transport error from `PostEvents` (the code
then calls `reconnect` and retries); `some (code, arg)` models a server
response.  The `REDIRECT` arm is:

```go
case collector.ResultCode_REDIRECT:
    if redirects > grpcRedirectMax {
        OboeLog(ERROR, fmt.Sprintf("Max redirects of %v exceeded", grpcRedirectMax))
    } else {
        r.redirect(connection, authority, response.GetArg())
        delay = grpcRetryDelayInitial
        redirects++
    }
```

— exceeding the cap only logs; `resultOk` stays `false` and the loop
retries the same batch. -/
def eventRetryStep (batchSize : ℕ) (resp : Option (ResultCode × String))
    (s : EventRetryState) : EventRetryState :=
  if s.resultOk then s
  else
    let s1 := { s with attempts := s.attempts + 1 }
    let s2 :=
      match resp with
      | none => s1
      | some (code, _arg) =>
        match code with
        | .ok => { s1 with resultOk := true, numSent := s1.numSent + batchSize }
        | .tryLater => { s1 with numFailed := s1.numFailed + batchSize }
        | .limitExceeded => { s1 with numFailed := s1.numFailed + batchSize }
        | .invalidApiKey => s1
        | .redirect =>
            if s1.redirects > grpcRedirectMax then s1
            else { s1 with delay := grpcRetryDelayInitial,
                           redirects := s1.redirects + 1 }
        | .unknown => s1
    if s2.resultOk then s2 else { s2 with delay := setRetryDelay s2.delay }

/-- Run `n` iterations of the retry loop for one batch against the response
stream `resp`. -/
def eventRetryRun (batchSize : ℕ) (resp : ℕ → Option (ResultCode × String)) :
    ℕ → EventRetryState
  | 0 => {}
  | n + 1 => eventRetryStep batchSize (resp n) (eventRetryRun batchSize resp n)

/-- **C3.** Against a collector that answers every `PostEvents` attempt with
`REDIRECT`, the event retry loop performs `min n 21` redirects in its first
`n` iterations — so it performs a 21st redirect, exceeding the claimed cap
of 20 — and `resultOk` is still `false` after every iteration: the loop
never exits, the batch is never abandoned, and each iteration is a further
send attempt (`attempts = n` grows without bound instead of stopping
at 21). -/
theorem eventRetryStep_redirect_capped (bs : ℕ) (addr : String) (s : EventRetryState)
    (hok : s.resultOk = false) (hcap : s.redirects > grpcRedirectMax) :
    eventRetryStep bs (some (.redirect, addr)) s =
      { s with attempts := s.attempts + 1, delay := setRetryDelay s.delay } := by
  simp [eventRetryStep, hok, hcap]

theorem eventRetryStep_redirect_performed (bs : ℕ) (addr : String) (s : EventRetryState)
    (hok : s.resultOk = false) (hcap : ¬ s.redirects > grpcRedirectMax) :
    eventRetryStep bs (some (.redirect, addr)) s =
      { s with attempts := s.attempts + 1, redirects := s.redirects + 1,
               delay := setRetryDelay grpcRetryDelayInitial } := by
  simp [eventRetryStep, hok, hcap]

theorem eventRetrySender_all_redirects_never_abandons
    (batchSize : ℕ) (addr : String) :
    ∀ n : ℕ,
      (eventRetryRun batchSize (fun _ => some (.redirect, addr)) n).resultOk = false ∧
      (eventRetryRun batchSize (fun _ => some (.redirect, addr)) n).redirects = min n 21 ∧
      (eventRetryRun batchSize (fun _ => some (.redirect, addr)) n).attempts = n := by
  intro n
  induction n with
  | zero => exact ⟨rfl, rfl, rfl⟩
  | succ n ih =>
      obtain ⟨hok, hred, hatt⟩ := ih
      rw [eventRetryRun]
      by_cases hcap : (eventRetryRun batchSize (fun _ => some (.redirect, addr)) n).redirects >
          grpcRedirectMax
      · rw [eventRetryStep_redirect_capped batchSize addr _ hok hcap]
        rw [hred] at hcap
        simp only [grpcRedirectMax] at hcap
        refine ⟨hok, ?_, ?_⟩
        · show (eventRetryRun batchSize (fun _ => some (.redirect, addr)) n).redirects =
            min (n + 1) 21
          rw [hred]
          omega
        · show (eventRetryRun batchSize (fun _ => some (.redirect, addr)) n).attempts + 1 =
            n + 1
          rw [hatt]
      · rw [eventRetryStep_redirect_performed batchSize addr _ hok hcap]
        rw [hred] at hcap
        simp only [grpcRedirectMax] at hcap
        refine ⟨hok, ?_, ?_⟩
        · show (eventRetryRun batchSize (fun _ => some (.redirect, addr)) n).redirects + 1 =
            min (n + 1) 21
          rw [hred]
          omega
        · show (eventRetryRun batchSize (fun _ => some (.redirect, addr)) n).attempts + 1 =
            n + 1
          rw [hatt]

/-! ## `reportEvent` and the event channel (src/unnamed/part_005 lines 395-409)

```go
func (r *grpcReporter) reportEvent(ctx *oboeContext, e *event) error {
    if err := prepareEvent(ctx, e); err != nil { return err }
    select {
    case r.eventMessages <- (*e).bbuf.GetBuf():
        go atomic.AddInt64(&r.eventConnection.queueStats.totalEvents, int64(1))
        return nil
    default:
        go atomic.AddInt64(&r.eventConnection.queueStats.numOverflowed, int64(1))
        return errors.New("Event message queue is full")
    }
}
```
-/

/-- `r.eventMessages` is created with `make(chan []byte, 1024)`. -/
def eventChannelCap : ℕ := 1024

/-- The part of the reporter state `reportEvent` touches: the buffered
event channel (as the list of queued byte buffers) and the two
`eventConnection.queueStats` counters it updates. -/
structure EventQueueState where
  queue : List (List ℕ) := []
  totalEvents : ℕ := 0
  numOverflowed : ℕ := 0
deriving Repr, DecidableEq

/-- `reportEvent`, after `prepareEvent` succeeded (`prepOk = true` models a
`nil` error from `prepareEvent`; on failure the function returns the error
without touching channel or stats).  The `select` with a `default:` branch
never blocks: the send succeeds exactly when the buffered channel has fewer
than `eventChannelCap` queued messages. Returns `none` for a `nil` error. -/
def reportEvent (s : EventQueueState) (prepOk : Bool) (buf : List ℕ) :
    Option String × EventQueueState :=
  if !prepOk then (some "prepare failed", s)
  else if s.queue.length < eventChannelCap then
    (none, { s with queue := s.queue ++ [buf], totalEvents := s.totalEvents + 1 })
  else
    (some "Event message queue is full", { s with numOverflowed := s.numOverflowed + 1 })

/-- **C7.** `reportEvent` never blocks the producer: for every prepared
event, if the event channel is full it returns an error and increments
`numOverflowed` by one leaving `totalEvents` and the queue unchanged; if
the channel has room it enqueues the buffer, increments `totalEvents` by
one, and returns `nil` leaving `numOverflowed` unchanged.  Moreover the
producer alone never overfills: the queue length stays `≤ 1024`. -/
theorem reportEvent_never_blocks (s : EventQueueState) (buf : List ℕ) :
    (¬ s.queue.length < eventChannelCap →
      (reportEvent s true buf).1 = some "Event message queue is full" ∧
      (reportEvent s true buf).2.numOverflowed = s.numOverflowed + 1 ∧
      (reportEvent s true buf).2.totalEvents = s.totalEvents ∧
      (reportEvent s true buf).2.queue = s.queue) ∧
    (s.queue.length < eventChannelCap →
      (reportEvent s true buf).1 = none ∧
      (reportEvent s true buf).2.queue = s.queue ++ [buf] ∧
      (reportEvent s true buf).2.totalEvents = s.totalEvents + 1 ∧
      (reportEvent s true buf).2.numOverflowed = s.numOverflowed) ∧
    (s.queue.length ≤ eventChannelCap →
      (reportEvent s true buf).2.queue.length ≤ eventChannelCap) := by
  refine ⟨fun hfull => ?_, fun hroom => ?_, fun hle => ?_⟩
  · simp [reportEvent, if_neg hfull]
  · simp [reportEvent, if_pos hroom]
  · by_cases hroom : s.queue.length < eventChannelCap
    · simp [reportEvent, if_pos hroom]
      omega
    · simp [reportEvent, if_neg hroom]
      omega

/-- Witness for C7: a full channel rejects and counts the drop; an empty
channel accepts. -/
theorem reportEvent_never_blocks_witness :
    (reportEvent { queue := List.replicate 1024 [7] } true [9]).1 =
      some "Event message queue is full" ∧
    (reportEvent { queue := List.replicate 1024 [7] } true [9]).2.numOverflowed = 1 ∧
    (reportEvent {} true [9]).1 = none ∧
    (reportEvent {} true [9]).2.totalEvents = 1 := by
  have hfull := (reportEvent_never_blocks { queue := List.replicate 1024 [7] } [9]).1
    (by show ¬ (List.replicate 1024 ([7] : List ℕ)).length < eventChannelCap
        rw [List.length_replicate]
        unfold eventChannelCap
        omega)
  have hroom := (reportEvent_never_blocks {} [9]).2.1
    (by show ([] : List (List ℕ)).length < eventChannelCap
        unfold eventChannelCap
        norm_num)
  exact ⟨hfull.1, hfull.2.1, hroom.1, hroom.2.2.1⟩

/-! ## Settings decoding (`updateSettings`, src/unnamed/part_005 lines 752-774;
`argsToMap`, reporter utils in src/README.md) -/

/-- `binary.LittleEndian.PutUint32` after Go's truncating conversion
`uint32(v)`: the four little-endian bytes of `v mod 2³²`. -/
def putUint32LE (v : ℕ) : List ℕ :=
  [v % 256, v / 256 % 256, v / 65536 % 256, v / 16777216 % 256]

/-- `binary.LittleEndian.PutUint64`: eight little-endian bytes. `argsToMap`
uses it on `math.Float64bits` patterns. -/
def putUint64LE (v : ℕ) : List ℕ :=
  [v % 256, v / 256 % 256, v / 65536 % 256, v / 16777216 % 256,
   v / 4294967296 % 256, v / 1099511627776 % 256,
   v / 281474976710656 % 256, v / 72057594037927936 % 256]

/-- `binary.LittleEndian.Uint32`: decode the first four bytes; it panics on
a shorter slice, modelled as `none`. -/
def leUint32 : List ℕ → Option ℕ
  | b0 :: b1 :: b2 :: b3 :: _ => some (b0 + 256 * b1 + 65536 * b2 + 16777216 * b3)
  | _ => none

theorem leUint32_putUint32LE (v : ℕ) : leUint32 (putUint32LE v) = some (v % 2 ^ 32) := by
  simp only [putUint32LE, leUint32, Option.some.injEq]
  omega

/-- One `collector.OboeSetting` restricted to the field `updateSettings`
reads for the flush interval and the transaction cap: its `Arguments`
map (`map[string][]byte`, modelled as an association list with the byte
slices as lists of byte values).  The other fields (`Type`, `Layer`,
`Flags`, `Value`, `Ttl`) are passed to `updateSetting` and do not touch
the two fields this claim tracks. -/
structure OboeSetting where
  arguments : List (String × List ℕ)
deriving Repr, DecidableEq

/-- `grpcMetricIntervalDefault = 30` (seconds). -/
def grpcMetricIntervalDefault : ℕ := 30

/-- Modelled from the spec: the constant `metricsTransactionsMaxDefault`
referenced by `updateSettings` is defined in none of the files under
`src/`; the spec fixes the default transaction-name cap at 200
("`MaxTransactions` (u32): update the aggregator's transaction-name cap;
default 200 when absent"). -/
def metricsTransactionsMaxDefault : ℕ := 200

/-- The two fields `updateSettings` writes: the reporter's
`collectMetricInterval` and the aggregator's
`metricsHTTPMeasurements.transactionNameMax`. -/
structure ReporterSettingsState where
  collectMetricInterval : ℕ := grpcMetricIntervalDefault
  transactionNameMax : ℕ := metricsTransactionsMaxDefault
deriving Repr, DecidableEq

/-- The body of `updateSettings`'s `for _, s := range settings.GetSettings()`
loop for one setting:

```go
if interval, ok := s.Arguments["MetricsFlushInterval"]; ok {
    r.collectMetricInterval = int(binary.LittleEndian.Uint32(interval))
} else {
    r.collectMetricInterval = grpcMetricIntervalDefault
}
...
if max, ok := s.Arguments["MaxTransactions"]; ok {
    metricsHTTPMeasurements.transactionNameMax = int(binary.LittleEndian.Uint32(max))
} else {
    metricsHTTPMeasurements.transactionNameMax = metricsTransactionsMaxDefault
}
```

Both new values are independent of the previous state `r`; a decode panic
(argument shorter than four bytes) propagates as `none`. -/
def updateSettingsStep (r : ReporterSettingsState) (s : OboeSetting) :
    Option ReporterSettingsState := do
  let interval ←
    match s.arguments.lookup "MetricsFlushInterval" with
    | some bs => leUint32 bs
    | none => some grpcMetricIntervalDefault
  let mx ←
    match s.arguments.lookup "MaxTransactions" with
    | some bs => leUint32 bs
    | none => some metricsTransactionsMaxDefault
  pure { collectMetricInterval := interval, transactionNameMax := mx }

/-- `updateSettings`: process all settings of one `SettingsResult` message
in order. -/
def updateSettings (r : ReporterSettingsState) (settings : List OboeSetting) :
    Option ReporterSettingsState :=
  settings.foldlM updateSettingsStep r

/-- `argsToMap(capacity, ratePerSec, metricsFlushInterval, maxTransactions)`
(reporter utils, src/README.md).  The two `float64` parameters enter the
map only through their IEEE-754 bit patterns (`math.Float64bits`), so each
is modelled by that bit pattern together with the outcome of its `> -1`
comparison; the two `int` parameters are modelled as integers, and Go's
truncating `uint32(x)` is `x mod 2³²`. -/
def argsToMap (capacityBits ratePerSecBits : ℕ) (capacityPos ratePerSecPos : Bool)
    (metricsFlushInterval maxTransactions : ℤ) : List (String × List ℕ) :=
  (if capacityPos then [("BucketCapacity", putUint64LE capacityBits)] else []) ++
  (if ratePerSecPos then [("BucketRate", putUint64LE ratePerSecBits)] else []) ++
  (if metricsFlushInterval > -1 then
    [("MetricsFlushInterval", putUint32LE (metricsFlushInterval % 2 ^ 32).toNat)] else []) ++
  (if maxTransactions > -1 then
    [("MaxTransactions", putUint32LE (maxTransactions % 2 ^ 32).toNat)] else [])

theorem argsToMap_lookup_interval (cb rb : ℕ) (cp rp : Bool) (i m : ℤ) (hi : 0 ≤ i) :
    (argsToMap cb rb cp rp i m).lookup "MetricsFlushInterval" =
      some (putUint32LE (i % 2 ^ 32).toNat) := by
  have hgt : i > -1 := by omega
  cases cp <;> cases rp <;>
    simp [argsToMap, List.lookup, hgt]

theorem argsToMap_lookup_max (cb rb : ℕ) (cp rp : Bool) (i m : ℤ) (hm : 0 ≤ m) :
    (argsToMap cb rb cp rp i m).lookup "MaxTransactions" =
      some (putUint32LE (m % 2 ^ 32).toNat) := by
  have hgt : m > -1 := by omega
  by_cases hig : i > -1 <;>
    cases cp <;> cases rp <;>
      simp [argsToMap, List.lookup, hgt, hig]

theorem updateSettings_append (r : ReporterSettingsState)
    (ms : List OboeSetting) (s : OboeSetting) (r1 : ReporterSettingsState)
    (h : updateSettings r ms = some r1) :
    updateSettings r (ms ++ [s]) = updateSettingsStep r1 s := by
  unfold updateSettings at h ⊢
  rw [List.foldlM_append, h]
  show updateSettingsStep r1 s >>= _ = _
  cases updateSettingsStep r1 s <;> simp

/-- **C6.** After `updateSettings` processes a settings message with at
least one setting (written `ms ++ [s]`, so `s` is the message's last
setting, whose values win), the flush interval is the little-endian u32
decoding of `Arguments["MetricsFlushInterval"]` when present and 30 when
absent, and the transaction-name cap is the decoding of
`Arguments["MaxTransactions"]` when present and 200 when absent; and for
all `0 ≤ i, m < 2³²`, arguments built by `argsToMap(_, _, i, m)` decode
back to exactly interval `i` and cap `m`. -/
theorem updateSettings_interval_and_cap (r : ReporterSettingsState)
    (ms : List OboeSetting) (s : OboeSetting) (r1 : ReporterSettingsState)
    (h : updateSettings r ms = some r1) :
    (s.arguments.lookup "MetricsFlushInterval" = none →
      s.arguments.lookup "MaxTransactions" = none →
      updateSettings r (ms ++ [s]) =
        some { collectMetricInterval := 30, transactionNameMax := 200 }) ∧
    (∀ bi i, s.arguments.lookup "MetricsFlushInterval" = some bi →
      leUint32 bi = some i →
      s.arguments.lookup "MaxTransactions" = none →
      updateSettings r (ms ++ [s]) =
        some { collectMetricInterval := i, transactionNameMax := 200 }) ∧
    (∀ bm m, s.arguments.lookup "MetricsFlushInterval" = none →
      s.arguments.lookup "MaxTransactions" = some bm →
      leUint32 bm = some m →
      updateSettings r (ms ++ [s]) =
        some { collectMetricInterval := 30, transactionNameMax := m }) ∧
    (∀ bi i bm m, s.arguments.lookup "MetricsFlushInterval" = some bi →
      leUint32 bi = some i →
      s.arguments.lookup "MaxTransactions" = some bm →
      leUint32 bm = some m →
      updateSettings r (ms ++ [s]) =
        some { collectMetricInterval := i, transactionNameMax := m }) ∧
    (∀ (cb rb : ℕ) (cp rp : Bool) (i m : ℤ),
      0 ≤ i → i < 2 ^ 32 → 0 ≤ m → m < 2 ^ 32 →
      updateSettings r (ms ++ [⟨argsToMap cb rb cp rp i m⟩]) =
        some { collectMetricInterval := i.toNat, transactionNameMax := m.toNat }) := by
  refine ⟨fun h1 h2 => ?_, fun bi i h1 hdec h2 => ?_, fun bm m h1 h2 hdec => ?_,
    fun bi i bm m h1 hd1 h2 hd2 => ?_, fun cb rb cp rp i m hi0 hi hm0 hm => ?_⟩
  · rw [updateSettings_append r ms s r1 h]
    simp [updateSettingsStep, h1, h2, grpcMetricIntervalDefault, metricsTransactionsMaxDefault]
  · rw [updateSettings_append r ms s r1 h]
    simp [updateSettingsStep, h1, h2, hdec, metricsTransactionsMaxDefault]
  · rw [updateSettings_append r ms s r1 h]
    simp [updateSettingsStep, h1, h2, hdec, grpcMetricIntervalDefault]
  · rw [updateSettings_append r ms s r1 h]
    simp [updateSettingsStep, h1, h2, hd1, hd2]
  · rw [updateSettings_append r ms ⟨argsToMap cb rb cp rp i m⟩ r1 h]
    have hl1 := argsToMap_lookup_interval cb rb cp rp i m hi0
    have hl2 := argsToMap_lookup_max cb rb cp rp i m hm0
    have hd1 : leUint32 (putUint32LE (i % 2 ^ 32).toNat) = some i.toNat := by
      rw [leUint32_putUint32LE]
      congr 1
      omega
    have hd2 : leUint32 (putUint32LE (m % 2 ^ 32).toNat) = some m.toNat := by
      rw [leUint32_putUint32LE]
      congr 1
      omega
    norm_num at hl1 hl2 hd1 hd2
    simp [updateSettingsStep, hl1, hl2, hd1, hd2]

/-- Witness for C6: a one-setting message carrying
`argsToMap(capacity, rate, 15, 5)` sets interval 15 and cap 5 (spec
scenario 6), and a one-setting message with no arguments restores the
defaults 30 and 200. -/
theorem updateSettings_interval_and_cap_witness :
    updateSettings {} [⟨argsToMap 0 0 false false 15 5⟩] =
      some { collectMetricInterval := 15, transactionNameMax := 5 } ∧
    updateSettings {} [⟨[]⟩] =
      some { collectMetricInterval := 30, transactionNameMax := 200 } := by
  have h := updateSettings_interval_and_cap {} [] ⟨[]⟩ {} rfl
  constructor
  · have h5 := (updateSettings_interval_and_cap {} [] ⟨[]⟩ {} rfl).2.2.2.2
      0 0 false false 15 5 (by norm_num) (by norm_num) (by norm_num) (by norm_num)
    simpa using h5
  · have h0 := h.1 rfl rfl
    simpa using h0

/-! ## Measurement aggregator (`recordMeasurement`, src/unnamed/part_006
lines 415-439)

```go
func recordMeasurement(m *Measurements, name string, tags *map[string]string,
    value float64, count int, reportValue bool) {
    measurements := m.measurements
    id := name + "&" + strconv.FormatBool(reportValue) + "&"
    for k, v := range *tags {
        id += k + ":" + v + "&"
    }
    ...
}
```

The `for k, v := range *tags` loop visits the Go map in an *unspecified,
randomized* iteration order; the order is therefore passed explicitly as
the list `tags`. -/

/-- `strconv.FormatBool`. -/
def formatBool (b : Bool) : String := if b then "true" else "false"

/-- The `id` string `recordMeasurement` builds: name, report flag, then one
`k:v&` fragment per tag *in the iteration order the Go runtime happens to
choose*. -/
def measurementId (name : String) (reportValue : Bool)
    (tags : List (String × String)) : String :=
  tags.foldl (fun id kv => id ++ kv.1 ++ ":" ++ kv.2 ++ "&")
    (name ++ "&" ++ formatBool reportValue ++ "&")

/-- One `Measurement` entry (`count` is a Go `int`, `sum` a `float64`). -/
structure Measurement where
  name : String
  tags : List (String × String)
  count : ℤ
  sum : ℚ
  reportValue : Bool
deriving Repr, DecidableEq

/-- `recordMeasurement` on the `m.measurements` map (an association list
keyed by the fingerprint `id`): locate-or-create the entry, then
`measurement.count += count; measurement.sum += value` (a fresh entry has
zero count and sum). -/
def recordMeasurement (m : List (String × Measurement)) (name : String)
    (tags : List (String × String)) (value : ℚ) (count : ℤ)
    (reportValue : Bool) : List (String × Measurement) :=
  match m.lookup (measurementId name reportValue tags) with
  | some meas =>
      m.map fun kv =>
        if kv.1 == measurementId name reportValue tags then
          (kv.1, { meas with count := meas.count + count, sum := meas.sum + value })
        else kv
  | none =>
      m ++ [(measurementId name reportValue tags,
             { name := name, tags := tags, count := count, sum := value,
               reportValue := reportValue })]

theorem lookup_append_of_none (m : List (String × Measurement)) (id : String)
    (v : Measurement) (h : m.lookup id = none) :
    (m ++ [(id, v)]).lookup id = some v := by
  induction m with
  | nil => simp [List.lookup]
  | cons kv t ih =>
      obtain ⟨k, b⟩ := kv
      rw [List.lookup] at h
      cases hk : (id == k) with
      | true => rw [hk] at h; exact absurd h (by simp)
      | false =>
          rw [hk] at h
          rw [List.cons_append, List.lookup, hk]
          exact ih h

theorem lookup_map_replace (m : List (String × Measurement)) (id : String)
    (meas w : Measurement) (h : m.lookup id = some meas) :
    (m.map fun kv => if kv.1 == id then (kv.1, w) else kv).lookup id = some w := by
  induction m with
  | nil => simp [List.lookup] at h
  | cons kv t ih =>
      obtain ⟨k, b⟩ := kv
      rw [List.lookup] at h
      rw [List.map_cons]
      cases hk : (id == k) with
      | true =>
          have hk2 : (k == id) = true := by
            rw [beq_iff_eq] at hk ⊢
            exact hk.symm
          simp only [hk2, if_true]
          rw [List.lookup, hk]
      | false =>
          have hk2 : (k == id) = false := by
            rw [beq_eq_false_iff_ne] at hk ⊢
            exact fun he => hk he.symm
          rw [hk] at h
          simp only [hk2, Bool.false_eq_true, if_false]
          rw [List.lookup, hk]
          exact ih h

/-- Recording twice with the same name, flag *and the same iteration order
of the tag map* accumulates into one entry: counts and sums add. -/
theorem recordMeasurement_accumulates (m : List (String × Measurement))
    (name : String) (tags : List (String × String)) (v1 : ℚ) (c1 : ℤ)
    (v2 : ℚ) (c2 : ℤ) (rv : Bool)
    (hfresh : m.lookup (measurementId name rv tags) = none) :
    (recordMeasurement (recordMeasurement m name tags v1 c1 rv)
        name tags v2 c2 rv).lookup (measurementId name rv tags) =
      some { name := name, tags := tags, count := c1 + c2, sum := v1 + v2,
             reportValue := rv } := by
  have h1 : recordMeasurement m name tags v1 c1 rv =
      m ++ [(measurementId name rv tags,
             { name := name, tags := tags, count := c1, sum := v1,
               reportValue := rv })] := by
    unfold recordMeasurement
    rw [hfresh]
  have h2 := lookup_append_of_none m (measurementId name rv tags)
    { name := name, tags := tags, count := c1, sum := v1, reportValue := rv } hfresh
  rw [h1]
  unfold recordMeasurement
  rw [h2]
  exact lookup_map_replace _ _ _ _ h2

/-- **C4.** The key `recordMeasurement` stores a measurement under is *not*
the sorted tag fingerprint, and it is *not* a deterministic function of
`(name, reportSum, tag map)`: the two iteration orders of the same two-tag
map `{t1: tag1, t2: tag2}` (same map — the lists are permutations of each
other) yield different keys; under the reversed order the entry the
repository's own `TestRecordMeasurement` looks up
(`"name1&false&t1:tag1&t2:tag2&"`) does not exist; and two record calls
with equal name, flag and tag map but different iteration orders create
two separate entries instead of accumulating into one.  (When the
iteration orders agree, the calls do accumulate into a single entry.) -/
theorem recordMeasurement_key_not_sorted_not_deterministic :
    ([("t1", "tag1"), ("t2", "tag2")] : List (String × String)).Perm
      [("t2", "tag2"), ("t1", "tag1")] ∧
    measurementId "name1" false [("t1", "tag1"), ("t2", "tag2")] ≠
      measurementId "name1" false [("t2", "tag2"), ("t1", "tag1")] ∧
    (recordMeasurement [] "name1" [("t2", "tag2"), ("t1", "tag1")] 111 1
        false).lookup "name1&false&t1:tag1&t2:tag2&" = none ∧
    (recordMeasurement [] "name1" [("t1", "tag1"), ("t2", "tag2")] 111 1
        false).lookup "name1&false&t1:tag1&t2:tag2&" =
      some { name := "name1", tags := [("t1", "tag1"), ("t2", "tag2")],
             count := 1, sum := 111, reportValue := false } ∧
    (recordMeasurement
        (recordMeasurement [] "name1" [("t1", "tag1"), ("t2", "tag2")] 111 1 false)
        "name1" [("t2", "tag2"), ("t1", "tag1")] 222 1 false).length = 2 ∧
    (recordMeasurement
        (recordMeasurement [] "name1" [("t1", "tag1"), ("t2", "tag2")] 111 1 false)
        "name1" [("t1", "tag1"), ("t2", "tag2")] 222 1 false).lookup
      "name1&false&t1:tag1&t2:tag2&" =
      some { name := "name1", tags := [("t1", "tag1"), ("t2", "tag2")],
             count := 2, sum := 333, reportValue := false } := by
  refine ⟨.swap _ _ _, by decide, by decide, by decide, by decide, ?_⟩
  have hid : measurementId "name1" false [("t1", "tag1"), ("t2", "tag2")] =
      "name1&false&t1:tag1&t2:tag2&" := by decide
  have h := recordMeasurement_accumulates [] "name1"
    [("t1", "tag1"), ("t2", "tag2")] 111 1 222 1 false (by decide)
  rw [hid] at h
  rw [h]
  norm_num

/-! ## `getTransactionFromURL` (src/unnamed/part_006 lines 358-371)

```go
var metricsURLRegex = regexp.MustCompile(`^(https?://)?[^/]+(/([^/\?]+))?(/([^/\?]+))?`)

func getTransactionFromURL(url string) string {
    matches := metricsURLRegex.FindStringSubmatch(url)
    var ret string
    if matches[3] != "" {
        ret += "/" + matches[3]
        if matches[5] != "" { ret += "/" + matches[5] }
    } else {
        ret = "/"
    }
    return ret
}
```

When the regex does not match (`url` empty, or starting with `/`),
`FindStringSubmatch` returns `nil` and `matches[3]` panics with an
index-out-of-range runtime error; the panic is modelled as `none`. -/

/-- The character class `[^/\?]+` of a path segment. -/
def isSegChar (c : Char) : Bool := !(c == '/') && !(c == '?')

/-- Match the optional group `(/([^/\?]+))?` at the head of `s`: returns
the captured segment and the remainder when the group matches, `none` when
it must match empty (no leading `/`, or `/` not followed by a segment
character). -/
def matchSeg : List Char → Option (List Char × List Char)
  | '/' :: t =>
      if (t.takeWhile isSegChar).isEmpty then none
      else some (t.takeWhile isSegChar, t.drop (t.takeWhile isSegChar).length)
  | _ => none

/-- Match `[^/]+(/([^/\?]+))?(/([^/\?]+))?` at the start of `s`, returning
the captures of groups 3 and 5 (`[]` = group unmatched).  `[^/]+` is greedy
and consumes the maximal run of non-`/` characters; the two optional
groups then prefer to match.  If the second path group cannot match where
the first one failed, it fails there too (identical subpattern at the same
position), so group 5 is empty whenever group 3 is. -/
def matchAfterScheme (s : List Char) : Option (List Char × List Char) :=
  match s with
  | [] => none
  | c :: _ =>
    if c == '/' then none
    else
      match matchSeg (s.dropWhile fun c => !(c == '/')) with
      | none => some ([], [])
      | some (g3, rest2) =>
        match matchSeg rest2 with
        | none => some (g3, [])
        | some (g5, _) => some (g3, g5)

/-- The scheme group `(https?://)?`: it is preferred when present, but if
`[^/]+` cannot match right after the scheme (end of string or `/`), the
backtracking matcher retries with the group matching empty. -/
def findSubmatchG3G5 (s : List Char) : Option (List Char × List Char) :=
  if "https://".toList.isPrefixOf s then
    match matchAfterScheme (s.drop 8) with
    | some r => some r
    | none => matchAfterScheme s
  else if "http://".toList.isPrefixOf s then
    match matchAfterScheme (s.drop 7) with
    | some r => some r
    | none => matchAfterScheme s
  else matchAfterScheme s

/-- `getTransactionFromURL`; `none` models the `matches[3]` panic on a
`nil` `FindStringSubmatch` result. -/
def getTransactionFromURL (url : String) : Option String :=
  match findSubmatchG3G5 url.toList with
  | none => none
  | some (g3, g5) =>
    if g3.isEmpty then some "/"
    else if g5.isEmpty then some ("/" ++ g3.asString)
    else some ("/" ++ g3.asString ++ "/" ++ g5.asString)

/-- **C4 anchor / C5.** `getTransactionFromURL` does *not* return normally
on every URL string: on the empty URL `""` (and on any URL starting with
`/`, e.g. a bare path) the regex has no match, `FindStringSubmatch`
returns `nil`, and `matches[3]` panics — instead of producing `"/"` as the
claim and spec boundary case B1 state.  On the URLs the regex does match,
the function behaves as claimed; the positive rows are exactly the
repository's own `TestGetTransactionFromURL` table (src/unnamed/part_002),
which never exercises the empty string. -/
theorem getTransactionFromURL_panics_on_empty_url :
    getTransactionFromURL "" = none ∧
    getTransactionFromURL "/hello" = none ∧
    getTransactionFromURL " " = some "/" ∧
    getTransactionFromURL "http://github.com" = some "/" ∧
    getTransactionFromURL "http://github.com/librato" = some "/librato" ∧
    getTransactionFromURL "github.com/librato/go-traceview/blob" =
      some "/librato/go-traceview" ∧
    getTransactionFromURL "github.com:8080/librato/go-traceview/blob" =
      some "/librato/go-traceview" ∧
    getTransactionFromURL
        "https://github.com/librato/go-traceview/blob/metrics/reporter.go#L867" =
      some "/librato/go-traceview" := by
  refine ⟨rfl, rfl, rfl, rfl, rfl, rfl, rfl, rfl⟩

/-! ## Transaction-name cap (`isWithinLimit`, src/unnamed/part_006
lines 373-384)

```go
func isWithinLimit(m *map[string]bool, element string, max int) bool {
    if _, ok := (*m)[element]; !ok {
        // only record if we haven't reached the limits yet
        if len(*m) < max {
            (*m)[element] = true
            return true
        }
        return false
    } else {
        return true
    }
}
```
-/

/-- `isWithinLimit`; the `map[string]bool` used as a set is modelled as the
duplicate-free list of its keys.  Returns the boolean result and the
updated set. -/
def isWithinLimit (m : List String) (element : String) (mx : ℕ) :
    Bool × List String :=
  if element ∈ m then (true, m)
  else if m.length < mx then (true, element :: m)
  else (false, m)

/-- Apply `isWithinLimit` for each element of `es` in order, keeping the
set. -/
def isWithinLimitAll (m : List String) (es : List String) (mx : ℕ) : List String :=
  es.foldl (fun acc e => (isWithinLimit acc e mx).2) m

theorem isWithinLimit_mem_preserved (m : List String) (e x : String) (mx : ℕ)
    (hx : x ∈ m) : x ∈ (isWithinLimit m e mx).2 := by
  unfold isWithinLimit
  split
  · exact hx
  · split
    · exact List.mem_cons_of_mem _ hx
    · exact hx

theorem isWithinLimitAll_mem_preserved (m : List String) (es : List String)
    (x : String) (mx : ℕ) (hx : x ∈ m) : x ∈ isWithinLimitAll m es mx := by
  induction es generalizing m with
  | nil => exact hx
  | cons e rest ih =>
      exact ih _ (isWithinLimit_mem_preserved m e x mx hx)

theorem isWithinLimit_true_of_mem (m : List String) (e : String) (mx : ℕ)
    (he : e ∈ m) : (isWithinLimit m e mx).1 = true := by
  unfold isWithinLimit
  rw [if_pos he]

/-- **C10.** For a transaction-name set `m` with `|m| ≤ max`,
`isWithinLimit(m, e, max)` returns `true` iff `e ∈ m` or `|m| < max`; it
inserts `e` exactly when `e ∉ m` and `|m| < max`; the updated set stays
duplicate-free with at most `max` elements; and a name already admitted
stays in the set across any later sequence of calls and is still admitted
by a later call, even after the cap is reached. -/
theorem isWithinLimit_spec (m : List String) (e : String) (mx : ℕ)
    (hnd : m.Nodup) (hle : m.length ≤ mx) :
    ((isWithinLimit m e mx).1 = true ↔ (e ∈ m ∨ m.length < mx)) ∧
    ((isWithinLimit m e mx).2 =
      if e ∉ m ∧ m.length < mx then e :: m else m) ∧
    ((isWithinLimit m e mx).2.Nodup ∧ (isWithinLimit m e mx).2.length ≤ mx) ∧
    (∀ es : List String, e ∈ m →
      e ∈ isWithinLimitAll m es mx ∧
      (isWithinLimit (isWithinLimitAll m es mx) e mx).1 = true) := by
  refine ⟨?_, ?_, ?_, fun es he => ?_⟩
  · unfold isWithinLimit
    split
    · rename_i h
      simp [h]
    · rename_i h
      split
      · rename_i h2
        simp [h, h2]
      · rename_i h2
        simp [h, h2]
  · unfold isWithinLimit
    split
    · rename_i h
      rw [if_neg (by simp [h])]
    · rename_i h
      split
      · rename_i h2
        rw [if_pos ⟨h, h2⟩]
      · rename_i h2
        rw [if_neg (by simp [h2] : ¬ (e ∉ m ∧ m.length < mx))]
  · unfold isWithinLimit
    split
    · exact ⟨hnd, hle⟩
    · rename_i h
      split
      · rename_i h2
        exact ⟨List.nodup_cons.mpr ⟨h, hnd⟩, by simpa using h2⟩
      · exact ⟨hnd, hle⟩
  · have hmem := isWithinLimitAll_mem_preserved m es e mx he
    exact ⟨hmem, isWithinLimit_true_of_mem _ e mx hmem⟩

/-- Witness for C10 at the repository's own `TestIsWithinLimit` scenario:
with cap 3 and the set `{t1, t2, t3}` already full, a new name `t4` is
rejected while the previously admitted `t2` is still admitted. -/
theorem isWithinLimit_spec_witness :
    (isWithinLimit ["t1", "t2", "t3"] "t2" 3).1 = true ∧
    (isWithinLimit ["t1", "t2", "t3"] "t4" 3).1 = false ∧
    (isWithinLimit ["t1", "t2", "t3"] "t4" 3).2.length ≤ 3 := by
  have h2 := isWithinLimit_spec ["t1", "t2", "t3"] "t2" 3 (by decide) (by decide)
  have h4 := isWithinLimit_spec ["t1", "t2", "t3"] "t4" 3 (by decide) (by decide)
  refine ⟨h2.1.mpr (Or.inl (by decide)), ?_, h4.2.2.1.2⟩
  have hne : ¬ ((isWithinLimit ["t1", "t2", "t3"] "t4" 3).1 = true) := by
    rw [h4.1]
    rintro (habs | habs) <;> revert habs <;> decide
  simpa using hne

/-! ## Service-key validation

`verifyServiceKey` is exercised by `TestVerifyServiceKey` (src/README.md
lines 298-314) but implemented in none of the files under `src/`. -/

/-- `strings.Split(key, ":")` on a character list: split at every colon.
Always returns at least one part. -/
def splitOnColon : List Char → List (List Char)
  | [] => [[]]
  | c :: t =>
    if c == ':' then [] :: splitOnColon t
    else
      match splitOnColon t with
      | [] => [[c]]
      | h :: r => (c :: h) :: r

theorem splitOnColon_ne_nil (cs : List Char) : splitOnColon cs ≠ [] := by
  induction cs with
  | nil => simp [splitOnColon]
  | cons c t ih =>
      rw [splitOnColon]
      split
      · simp
      · cases h : splitOnColon t with
        | nil => exact absurd h ih
        | cons hh tt => simp

theorem splitOnColon_no_colon (t : List Char) (h : ':' ∉ t) :
    splitOnColon t = [t] := by
  induction t with
  | nil => rfl
  | cons c cs ih =>
      have h1 : ¬ (c == ':') = true := by
        simp only [beq_iff_eq]
        exact fun he => h (by simp [he])
      have h2 : ':' ∉ cs := fun he => h (List.mem_cons_of_mem _ he)
      rw [splitOnColon, if_neg h1, ih h2]

theorem splitOnColon_append (t s : List Char) (h : ':' ∉ t) :
    splitOnColon (t ++ ':' :: s) = t :: splitOnColon s := by
  induction t with
  | nil => simp [splitOnColon]
  | cons c cs ih =>
      have h1 : ¬ (c == ':') = true := by
        simp only [beq_iff_eq]
        exact fun he => h (by simp [he])
      have h2 : ':' ∉ cs := fun he => h (List.mem_cons_of_mem _ he)
      rw [List.cons_append, splitOnColon, if_neg h1, ih h2]

theorem splitOnColon_eq_single (cs : List Char) :
    ∀ x, splitOnColon cs = [x] → cs = x ∧ ':' ∉ x := by
  induction cs with
  | nil =>
      intro x h
      rw [splitOnColon] at h
      obtain rfl : ([] : List Char) = x := by simpa using h
      exact ⟨rfl, by simp⟩
  | cons c t ih =>
      intro x h
      rw [splitOnColon] at h
      by_cases hc : (c == ':') = true
      · rw [if_pos hc] at h
        have hne := splitOnColon_ne_nil t
        simp only [List.cons.injEq] at h
        exact absurd h.2 hne
      · rw [if_neg hc] at h
        cases hsp : splitOnColon t with
        | nil => exact absurd hsp (splitOnColon_ne_nil t)
        | cons hh tt =>
            rw [hsp] at h
            simp only [List.cons.injEq] at h
            obtain ⟨hx, htt⟩ := h
            rw [htt] at hsp
            obtain ⟨h1, h2⟩ := ih hh hsp
            subst h1
            refine ⟨by rw [hx], ?_⟩
            rw [← hx]
            intro hmem
            rcases List.mem_cons.mp hmem with hce | hmem2
            · exact hc (beq_iff_eq.mpr hce.symm)
            · exact h2 hmem2

theorem splitOnColon_eq_pair (cs : List Char) :
    ∀ t s, splitOnColon cs = [t, s] →
      cs = t ++ ':' :: s ∧ ':' ∉ t ∧ ':' ∉ s := by
  induction cs with
  | nil =>
      intro t s h
      rw [splitOnColon] at h
      simp at h
  | cons c r ih =>
      intro t s h
      rw [splitOnColon] at h
      by_cases hc : (c == ':') = true
      · rw [if_pos hc] at h
        have hceq : c = ':' := by simpa using hc
        simp only [List.cons.injEq] at h
        obtain ⟨ht, hr⟩ := h
        obtain ⟨hr1, hr2⟩ := splitOnColon_eq_single r s hr
        subst hceq
        subst hr1
        exact ⟨by rw [← ht]; simp, by rw [← ht]; simp, hr2⟩
      · rw [if_neg hc] at h
        cases hsp : splitOnColon r with
        | nil => exact absurd hsp (splitOnColon_ne_nil r)
        | cons hh tt =>
            rw [hsp] at h
            simp only [List.cons.injEq] at h
            obtain ⟨hx, htt⟩ := h
            rw [htt] at hsp
            obtain ⟨hr1, hc2, hc3⟩ := ih hh s hsp
            refine ⟨?_, ?_, hc3⟩
            · rw [← hx, hr1]
              simp
            · rw [← hx]
              intro hmem
              rcases List.mem_cons.mp hmem with hce | hmem2
              · exact hc (beq_iff_eq.mpr hce.symm)
              · exact hc2 hmem2

/-- Modelled from the spec: `verifyServiceKey` is defined in none of the
files under `src/`.  Spec §6: "accept iff the key contains exactly one `:`
and both halves are non-empty; otherwise fail with \"invalid service
key\"" — refined by the expected outputs of the repository's own
`TestVerifyServiceKey` (src/README.md), which fixes *two* concrete error
strings: a dedicated one for the empty key and a shared one for every
other malformed key. -/
def verifyServiceKey (key : String) : Except String Unit :=
  if key.toList = [] then .error "invalid service key: empty string"
  else
    match splitOnColon key.toList with
    | [tok, svc] =>
        if tok.isEmpty || svc.isEmpty then
          .error "invalid service key: no colon found or tk/service name is missing"
        else .ok ()
    | _ => .error "invalid service key: no colon found or tk/service name is missing"

/-- Counterexample for **C8**: validation does not fail with a *single*,
specific error — the empty key and a colon-free key produce two different
"invalid service key" errors (exactly as the repository's
`TestVerifyServiceKey` expects). -/
theorem verifyServiceKey_two_distinct_errors :
    verifyServiceKey "" = .error "invalid service key: empty string" ∧
    verifyServiceKey "1234567890abcdef" =
      .error "invalid service key: no colon found or tk/service name is missing" ∧
    ("invalid service key: empty string" : String) ≠
      "invalid service key: no colon found or tk/service name is missing" := by
  refine ⟨rfl, rfl, by decide⟩

/-- **C8 (amended).** Service-key validation is total: it returns success
exactly for keys consisting of a non-empty colon-free token, one `:`, and
a non-empty colon-free service name (i.e. exactly one `:` with both halves
non-empty), and for every other input it fails with one of *two* specific
"invalid service key" errors — a dedicated message for the empty string
and a shared message otherwise.  The eight rows of `TestVerifyServiceKey`
hold. -/
theorem verifyServiceKey_eval_empty (key : String) (hk : key.toList = []) :
    verifyServiceKey key = .error "invalid service key: empty string" := by
  unfold verifyServiceKey
  rw [if_pos hk]

theorem verifyServiceKey_eval_single (key : String) (x : List Char)
    (hk : key.toList ≠ []) (hsp : splitOnColon key.toList = [x]) :
    verifyServiceKey key =
      .error "invalid service key: no colon found or tk/service name is missing" := by
  unfold verifyServiceKey
  rw [if_neg hk, hsp]

theorem verifyServiceKey_eval_pair (key : String) (tok svc : List Char)
    (hk : key.toList ≠ []) (hsp : splitOnColon key.toList = [tok, svc]) :
    verifyServiceKey key =
      if (tok.isEmpty || svc.isEmpty) = true then
        .error "invalid service key: no colon found or tk/service name is missing"
      else .ok () := by
  unfold verifyServiceKey
  rw [if_neg hk, hsp]

theorem verifyServiceKey_eval_long (key : String) (x y z : List Char)
    (zs : List (List Char)) (hk : key.toList ≠ [])
    (hsp : splitOnColon key.toList = x :: y :: z :: zs) :
    verifyServiceKey key =
      .error "invalid service key: no colon found or tk/service name is missing" := by
  unfold verifyServiceKey
  rw [if_neg hk, hsp]

/-- **C8 (amended).** Service-key validation is total: it returns success
exactly for keys consisting of a non-empty colon-free token, one `:`, and
a non-empty colon-free service name (i.e. exactly one `:` with both halves
non-empty), and for every other input it fails with one of *two* specific
"invalid service key" errors — a dedicated message for the empty string
and a shared message otherwise.  The eight rows of `TestVerifyServiceKey`
hold. -/
theorem verifyServiceKey_spec (key : String) :
    (verifyServiceKey key = .ok () ↔
      ∃ t s : List Char, key.toList = t ++ ':' :: s ∧ t ≠ [] ∧ s ≠ [] ∧
        ':' ∉ t ∧ ':' ∉ s) ∧
    (verifyServiceKey key = .ok () ∨
      verifyServiceKey key = .error "invalid service key: empty string" ∨
      verifyServiceKey key =
        .error "invalid service key: no colon found or tk/service name is missing") ∧
    (verifyServiceKey key = .error "invalid service key: empty string" ↔
      key = "") ∧
    (verifyServiceKey "1234567890abcdef:Go" = .ok () ∧
      verifyServiceKey "" ≠ .ok () ∧
      verifyServiceKey "abc:Go" = .ok () ∧
      verifyServiceKey "abcd1234:Go" = .ok () ∧
      verifyServiceKey "1234567890abcdef" ≠ .ok () ∧
      verifyServiceKey "1234567890abcdef:" ≠ .ok () ∧
      verifyServiceKey ":Go" ≠ .ok () ∧
      verifyServiceKey "abc:123:Go" ≠ .ok ()) := by
  refine ⟨?_, ?_, ?_,
    ⟨rfl, fun h => Except.noConfusion h, rfl, rfl, fun h => Except.noConfusion h,
      fun h => Except.noConfusion h, fun h => Except.noConfusion h,
      fun h => Except.noConfusion h⟩⟩
  · by_cases hk : key.toList = []
    · rw [verifyServiceKey_eval_empty key hk]
      constructor
      · intro h
        exact absurd h (by simp)
      · rintro ⟨t, s, heq, ht, hs, hct, hcs⟩
        rw [hk] at heq
        exact absurd heq.symm (by simp)
    · rcases hsp : splitOnColon key.toList with _ | ⟨tok, _ | ⟨svc, _ | ⟨z, zs⟩⟩⟩
      · exact absurd hsp (splitOnColon_ne_nil _)
      · rw [verifyServiceKey_eval_single key tok hk hsp]
        constructor
        · intro h
          exact absurd h (by simp)
        · rintro ⟨t, s, heq, ht, hs, hct, hcs⟩
          have hts : splitOnColon key.toList = [t, s] := by
            rw [heq, splitOnColon_append t s hct, splitOnColon_no_colon s hcs]
          rw [hsp] at hts
          simp at hts
      · rw [verifyServiceKey_eval_pair key tok svc hk hsp]
        constructor
        · intro h
          by_cases hemp : (tok.isEmpty || svc.isEmpty) = true
          · rw [if_pos hemp] at h
            exact absurd h (by simp)
          · obtain ⟨heq, hct, hcs⟩ := splitOnColon_eq_pair key.toList tok svc hsp
            simp only [Bool.or_eq_true, List.isEmpty_iff, not_or] at hemp
            exact ⟨tok, svc, heq, hemp.1, hemp.2, hct, hcs⟩
        · rintro ⟨t, s, heq, ht, hs, hct, hcs⟩
          have hts : splitOnColon key.toList = [t, s] := by
            rw [heq, splitOnColon_append t s hct, splitOnColon_no_colon s hcs]
          rw [hsp] at hts
          simp only [List.cons.injEq, and_true] at hts
          obtain ⟨h1, h2⟩ := hts
          rw [if_neg (by simp [List.isEmpty_iff, h1, h2, ht, hs])]
      · rw [verifyServiceKey_eval_long key tok svc z zs hk hsp]
        constructor
        · intro h
          exact absurd h (by simp)
        · rintro ⟨t, s, heq, ht, hs, hct, hcs⟩
          have hts : splitOnColon key.toList = [t, s] := by
            rw [heq, splitOnColon_append t s hct, splitOnColon_no_colon s hcs]
          rw [hsp] at hts
          simp at hts
  · by_cases hk : key.toList = []
    · rw [verifyServiceKey_eval_empty key hk]
      right
      left
      rfl
    · rcases hsp : splitOnColon key.toList with _ | ⟨tok, _ | ⟨svc, _ | ⟨z, zs⟩⟩⟩
      · exact absurd hsp (splitOnColon_ne_nil _)
      · rw [verifyServiceKey_eval_single key tok hk hsp]
        right
        right
        rfl
      · rw [verifyServiceKey_eval_pair key tok svc hk hsp]
        by_cases hemp : (tok.isEmpty || svc.isEmpty) = true
        · rw [if_pos hemp]
          right
          right
          rfl
        · rw [if_neg hemp]
          left
          rfl
      · rw [verifyServiceKey_eval_long key tok svc z zs hk hsp]
        right
        right
        rfl
  · have hiff : key.toList = [] ↔ key = "" := by
      constructor
      · intro h
        exact String.ext h
      · intro h
        rw [h]
        rfl
    by_cases hk : key.toList = []
    · rw [verifyServiceKey_eval_empty key hk]
      simp [hiff.mp hk]
    · have hns : ¬ key = "" := fun he => hk (hiff.mpr he)
      rcases hsp : splitOnColon key.toList with _ | ⟨tok, _ | ⟨svc, _ | ⟨z, zs⟩⟩⟩
      · exact absurd hsp (splitOnColon_ne_nil _)
      · rw [verifyServiceKey_eval_single key tok hk hsp]
        simp [hns]
      · rw [verifyServiceKey_eval_pair key tok svc hk hsp]
        by_cases hemp : (tok.isEmpty || svc.isEmpty) = true
        · rw [if_pos hemp]
          simp [hns]
        · rw [if_neg hemp]
          simp [hns]
      · rw [verifyServiceKey_eval_long key tok svc z zs hk hsp]
        simp [hns]

/-- Witness for C8's amended theorem at concrete keys: `"abc:Go"` is
accepted, `""` is rejected. -/
theorem verifyServiceKey_spec_witness :
    verifyServiceKey "abc:Go" = .ok () ∧ verifyServiceKey "" ≠ .ok () := by
  have hok := (verifyServiceKey_spec "abc:Go").1
  have hempty := (verifyServiceKey_spec "").1
  constructor
  · exact hok.mpr ⟨['a', 'b', 'c'], ['G', 'o'], by decide, by decide, by decide,
      by decide, by decide⟩
  · intro habs
    obtain ⟨t, s, heq, ht, hs, hct, hcs⟩ := hempty.mp habs
    have : ([] : List Char) = t ++ ':' :: s := heq
    exact absurd this.symm (by simp)

/-! ## Reconnect ownership (`grpcReporter.reconnect`, src/unnamed/part_005
lines 267-293)

```go
func (r *grpcReporter) reconnect(c *grpcConnection, authority reconnectAuthority) {
    if c.reconnectAuthority == UNSET {
        // we might be the first goroutine attempting a reconnect, lock and check again
        c.lock.Lock()
        if c.reconnectAuthority == UNSET {
            c.reconnectAuthority = authority
        }
        c.lock.Unlock()
    }
    if c.reconnectAuthority == authority {
        c.lock.Lock()
        c.client = collector.NewTraceCollectorClient(c.connection)
        c.lock.Unlock()
        c.sendConnectionInit()
    } else {
        for c.reconnectAuthority != UNSET {
            time.Sleep(time.Second)
        }
    }
}
```

Modelled as an interleaved transition system for one reconnect episode on
one connection: each goroutine of an index type `G` runs `reconnect` once
with its own authority id `auth g` (the senders sharing a connection use
distinct `reconnectAuthority` constants, hence `auth` injective and never
`UNSET`).  The locked double-check is a single atomic step (it holds
`c.lock`), and the stub rebuild — also under the lock — is a single atomic
step that bumps a stub-version counter, so stub mutations are visible as
`stubVersion` increments. -/

/-- `reconnectAuthority`: `UNSET` plus the four sender ids. -/
inductive ReconnectAuthority where
  | unset
  | postevents
  | poststatus
  | postmetrics
  | getsettings
deriving Repr, DecidableEq

/-- Program counter of one goroutine inside `reconnect`. -/
inductive ReconnectPC where
  | start
  | tryClaim
  | deciding
  | rebuilding
  | waiting
  | done
deriving Repr, DecidableEq

/-- Shared connection state plus each goroutine's position in `reconnect`. -/
structure ReconnectState (G : Type) where
  owner : ReconnectAuthority
  pc : G → ReconnectPC
  stubVersion : ℕ

/-- Initial state of an episode: `c.reconnectAuthority == UNSET`, every
goroutine at the top of `reconnect`. -/
def reconnectInit (G : Type) : ReconnectState G :=
  { owner := .unset, pc := fun _ => .start, stubVersion := 0 }

/-- One atomic step of goroutine `g` executing `reconnect`:
* `outerCheck` — the unlocked read `if c.reconnectAuthority == UNSET`;
* `lockedClaim` — the locked double-check-and-claim
  (`c.lock.Lock(); if c.reconnectAuthority == UNSET { c.reconnectAuthority = authority }; c.lock.Unlock()`);
* `decideStep` — the read in `if c.reconnectAuthority == authority`;
* `rebuild` — the stub rebuild under the write lock (owner branch);
* `waitPoll` — one iteration of `for c.reconnectAuthority != UNSET { sleep }`. -/
inductive ReconnectStep {G : Type} [DecidableEq G] (auth : G → ReconnectAuthority)
    (g : G) : ReconnectState G → ReconnectState G → Prop where
  | outerCheck (s : ReconnectState G) (h : s.pc g = .start) :
      ReconnectStep auth g s
        { s with pc := (Function.update s.pc g
            (if s.owner = .unset then .tryClaim else .deciding)) }
  | lockedClaim (s : ReconnectState G) (h : s.pc g = .tryClaim) :
      ReconnectStep auth g s
        { s with owner := if s.owner = .unset then auth g else s.owner,
                 pc := Function.update s.pc g .deciding }
  | decideStep (s : ReconnectState G) (h : s.pc g = .deciding) :
      ReconnectStep auth g s
        { s with pc := (Function.update s.pc g
            (if s.owner = auth g then .rebuilding else .waiting)) }
  | rebuild (s : ReconnectState G) (h : s.pc g = .rebuilding) :
      ReconnectStep auth g s
        { s with stubVersion := s.stubVersion + 1,
                 pc := Function.update s.pc g .done }
  | waitPoll (s : ReconnectState G) (h : s.pc g = .waiting) :
      ReconnectStep auth g s
        { s with pc := (Function.update s.pc g
            (if s.owner = .unset then .done else .waiting)) }

/-- States reachable in one reconnect episode by interleaving goroutine
steps. -/
inductive ReconnectReachable {G : Type} [DecidableEq G]
    (auth : G → ReconnectAuthority) : ReconnectState G → Prop where
  | init : ReconnectReachable auth (reconnectInit G)
  | step {s s' : ReconnectState G} {g : G} (hr : ReconnectReachable auth s)
      (hs : ReconnectStep auth g s s') : ReconnectReachable auth s'

theorem reconnect_owner_change {G : Type} [DecidableEq G]
    (auth : G → ReconnectAuthority) (g : G) (s s' : ReconnectState G)
    (hs : ReconnectStep auth g s s') (hch : s.owner ≠ s'.owner) :
    s.owner = .unset ∧ s'.owner = auth g ∧ s.pc g = .tryClaim := by
  cases hs with
  | outerCheck h => exact absurd rfl hch
  | lockedClaim h =>
      by_cases hu : s.owner = .unset
      · exact ⟨hu, by simp [hu], h⟩
      · exact absurd (by simp [hu]) hch
  | decideStep h => exact absurd rfl hch
  | rebuild h => exact absurd rfl hch
  | waitPoll h => exact absurd rfl hch

theorem reconnect_rebuilding_owner {G : Type} [DecidableEq G]
    (auth : G → ReconnectAuthority) (hne : ∀ g, auth g ≠ .unset)
    (s : ReconnectState G) (hr : ReconnectReachable auth s) :
    ∀ g, s.pc g = .rebuilding → s.owner = auth g := by
  induction hr with
  | init =>
      intro g h
      exact absurd h (by simp [reconnectInit])
  | @step s s' g0 hr hs ih =>
      intro g h
      cases hs with
      | outerCheck h0 =>
          simp only [Function.update_apply] at h
          by_cases hgg : g = g0
          · rw [if_pos hgg] at h
            split at h <;> simp at h
          · rw [if_neg hgg] at h
            exact ih g h
      | lockedClaim h0 =>
          simp only [Function.update_apply] at h
          by_cases hgg : g = g0
          · rw [if_pos hgg] at h
            simp at h
          · rw [if_neg hgg] at h
            have hown := ih g h
            show (if s.owner = .unset then auth g0 else s.owner) = auth g
            rw [if_neg (by rw [hown]; exact hne g)]
            exact hown
      | decideStep h0 =>
          simp only [Function.update_apply] at h
          by_cases hgg : g = g0
          · rw [if_pos hgg] at h
            by_cases how : s.owner = auth g0
            · rw [hgg]
              exact how
            · rw [if_neg how] at h
              simp at h
          · rw [if_neg hgg] at h
            exact ih g h
      | rebuild h0 =>
          simp only [Function.update_apply] at h
          by_cases hgg : g = g0
          · rw [if_pos hgg] at h
            simp at h
          · rw [if_neg hgg] at h
            exact ih g h
      | waitPoll h0 =>
          simp only [Function.update_apply] at h
          by_cases hgg : g = g0
          · rw [if_pos hgg] at h
            split at h <;> simp at h
          · rw [if_neg hgg] at h
            exact ih g h

/-- **C9.** In every reachable state of a reconnect episode with distinct,
non-`UNSET` authority ids per goroutine: (a) the ownership field changes
only by a claim from `UNSET` to the claimer's id in the locked
double-check — so it only ever transitions between `UNSET` and an owner
id; (b) a goroutine rebuilds the client stub only while it is the owner
(`reconnectAuthority` equals its id); (c) hence at most one goroutine
holds reconnect ownership / is in the rebuild branch at any instant;
(d) a non-owner in the wait loop never mutates the stub and stays waiting
until the ownership field returns to `UNSET`. -/
theorem reconnect_single_owner (G : Type) [DecidableEq G]
    (auth : G → ReconnectAuthority) (hinj : Function.Injective auth)
    (hne : ∀ g, auth g ≠ .unset) (s : ReconnectState G)
    (hr : ReconnectReachable auth s) :
    (∀ (g : G) (s' : ReconnectState G), ReconnectStep auth g s s' →
      s.owner ≠ s'.owner →
      s.owner = .unset ∧ s'.owner = auth g ∧ s.pc g = .tryClaim) ∧
    (∀ g : G, s.pc g = .rebuilding → s.owner = auth g) ∧
    (∀ g g' : G, s.pc g = .rebuilding → s.pc g' = .rebuilding → g = g') ∧
    (∀ (g : G) (s' : ReconnectState G), s.pc g = .waiting →
      ReconnectStep auth g s s' →
      s'.stubVersion = s.stubVersion ∧
        (s.owner ≠ .unset → s'.pc g = .waiting)) := by
  refine ⟨fun g s' hs hch => reconnect_owner_change auth g s s' hs hch,
    reconnect_rebuilding_owner auth hne s hr, fun g g' hg hg' => ?_, fun g s' hw hs => ?_⟩
  · have h1 := reconnect_rebuilding_owner auth hne s hr g hg
    have h2 := reconnect_rebuilding_owner auth hne s hr g' hg'
    exact hinj (h1.symm.trans h2)
  · cases hs with
    | outerCheck h0 => exact absurd h0 (by rw [hw]; simp)
    | lockedClaim h0 => exact absurd h0 (by rw [hw]; simp)
    | decideStep h0 => exact absurd h0 (by rw [hw]; simp)
    | rebuild h0 => exact absurd h0 (by rw [hw]; simp)
    | waitPoll h0 =>
        refine ⟨rfl, fun ho => ?_⟩
        show Function.update s.pc g
          (if s.owner = .unset then ReconnectPC.done else .waiting) g = .waiting
        rw [Function.update_same, if_neg ho]

/-- Goroutine `true` (authority `POSTMETRICS`) claims ownership and reaches
the rebuild branch; goroutine `false` (authority `GETSETTINGS`) has not
moved. -/
def reconnectDemoAuth : Bool → ReconnectAuthority :=
  fun b => if b then .postmetrics else .getsettings

/-- State after `outerCheck true` from the initial state. -/
def reconnectDemo1 : ReconnectState Bool :=
  { reconnectInit Bool with
      pc := (Function.update (reconnectInit Bool).pc true
        (if (reconnectInit Bool).owner = .unset then .tryClaim else .deciding)) }

/-- State after `lockedClaim true`. -/
def reconnectDemo2 : ReconnectState Bool :=
  { reconnectDemo1 with
      owner := if reconnectDemo1.owner = .unset then reconnectDemoAuth true
               else reconnectDemo1.owner,
      pc := Function.update reconnectDemo1.pc true .deciding }

/-- State after `decideStep true`. -/
def reconnectDemo3 : ReconnectState Bool :=
  { reconnectDemo2 with
      pc := (Function.update reconnectDemo2.pc true
        (if reconnectDemo2.owner = reconnectDemoAuth true then .rebuilding
         else .waiting)) }

/-- Witness for C9: along a concrete interleaving in which goroutine `true`
claims ownership and enters the rebuild branch, the theorem yields that
the ownership field equals that goroutine's authority (`POSTMETRICS`). -/
theorem reconnect_single_owner_witness :
    reconnectDemo3.pc true = .rebuilding ∧
    reconnectDemo3.owner = .postmetrics := by
  have hreach : ReconnectReachable reconnectDemoAuth reconnectDemo3 := by
    have h0 : ReconnectReachable reconnectDemoAuth (reconnectInit Bool) :=
      ReconnectReachable.init
    have h1 : ReconnectReachable reconnectDemoAuth reconnectDemo1 :=
      ReconnectReachable.step h0
        (@ReconnectStep.outerCheck Bool _ reconnectDemoAuth true (reconnectInit Bool) rfl)
    have h2 : ReconnectReachable reconnectDemoAuth reconnectDemo2 :=
      ReconnectReachable.step h1
        (@ReconnectStep.lockedClaim Bool _ reconnectDemoAuth true reconnectDemo1 (by decide))
    exact ReconnectReachable.step h2
      (@ReconnectStep.decideStep Bool _ reconnectDemoAuth true reconnectDemo2 (by decide))
  have h := reconnect_single_owner Bool reconnectDemoAuth (by decide) (by decide)
    reconnectDemo3 hreach
  exact ⟨by decide, h.2.1 true (by decide)⟩

end AppOptics
